import Mathlib

/-!
Shallow embedding of the Hausdorff Ising model simulation
(`src/IsingModel.cpp`, `interface/IsingModel.h`).

C++ `double` values are modelled as real numbers, `int` values as `ℤ`
(or `ℕ` for quantities that are only ever non-negative, such as loop
indices and `nSpins`, which starts at 0 and is only incremented).
Functions that can throw (`std::vector::at` out of range) or terminate
the process (`exit(EXIT_FAILURE)`) are modelled as `Option`/`Except`.
Out-of-range `std::vector::at` calls that cannot occur on states built
by `setup` are modelled with `List.getD` (see the comments at each use).
-/

namespace HausdorffIsing

noncomputable section

/-- The `spin` struct of `IsingModel.h`: value `S` (±1), `active` flag and
the coordinate vector (`std::vector<double>` in `IsingModel.cpp`;
the header's stale `std::vector<int>` declaration disagrees with every
use in the implementation file, which assigns `double` coordinates). -/
structure Spin where
  S : ℤ
  active : Bool
  coords : List ℝ

/-- Placeholder used with `List.getD` where the C++ code would call
`std::vector::at`.  Its `active` flag is `false`, so an out-of-range
neighbour access contributes nothing to the energy (in C++ such an
access throws; it cannot occur on states built by `setup`, where
`nSpins` equals the length of `spinArray`). -/
def defaultSpin : Spin := { S := 0, active := false, coords := [] }

/-- The member state of the `IsingModel` class.  Fields follow the header
declarations.  `xmin`/`xmax` are referenced by `IsingModel.cpp`
(lines 204-221) but declared nowhere under `src/`; they are modelled from
the spec (§9: the per-axis extreme sentinel coordinate values) as abstract
real fields.  `mcMethod`, `currentEffH`, `mcInfo` and `hybridInfo` are
likewise used by the implementation file without a declaration in the
header; they are carried here as ordinary fields. -/
structure IsingModel where
  spinArray : List Spin
  latticeDimensions : List ℤ
  latticeDepth : ℤ
  nThreads : ℤ
  nSpins : ℕ
  nLatticePoints : ℤ
  interactionSigma : ℝ
  hausdorffDim : ℝ
  hausdorffSlices : ℤ
  hausdorffScale : ℝ
  hausdorffMethod : String
  mcMethod : String
  nMCSteps : ℤ
  kbT : ℝ
  H : ℝ
  J : ℝ
  magnetization : ℤ
  currentEffH : ℝ
  mcInfo : List ℝ
  hybridInfo : List ℝ
  hasBeenSetup : Bool
  xmin : ℝ
  xmax : ℝ

/-- The default member values of the header (`IsingModel.h` lines 73-95).
Note `double hausdorffScale=1/3;` performs C++ integer division, so the
stored default is `0`.  `latticeDepth` is declared `double` but is set by
`setLatticeDepth(const int)` and used as an `int` depth everywhere.
`mcMethod` has no declaration (hence no initializer) under `src/`; the
empty string models an unset selector, which every dispatch treats as
"none of METROPOLIS/HEATBATH/HYBRID". -/
def initialModel : IsingModel where
  spinArray := []
  latticeDimensions := []
  latticeDepth := 1
  nThreads := 1
  nSpins := 0
  nLatticePoints := 0
  interactionSigma := 1
  hausdorffDim := 1
  hausdorffSlices := 2
  hausdorffScale := 0
  hausdorffMethod := "SCALING"
  mcMethod := ""
  nMCSteps := 10000
  kbT := 1
  H := 1
  J := 1
  magnetization := 0
  currentEffH := 0
  mcInfo := []
  hybridInfo := []
  hasBeenSetup := false
  xmin := 0
  xmax := 1

/-- `IsingModel::setNumThreads` (`IsingModel.cpp` lines 24-28).  The guard
tests the *member* `nThreads`, not the argument `num`. -/
def setNumThreads (st : IsingModel) (num : ℤ) : IsingModel :=
  if st.nThreads < 1 then st
  else { st with nThreads := num, hasBeenSetup := false }

/-- `IsingModel::setNumMCSteps` (lines 35-39). -/
def setNumMCSteps (st : IsingModel) (num : ℤ) : IsingModel :=
  if num < 1 then st
  else { st with nMCSteps := num, hasBeenSetup := false }

/-- `IsingModel::setLatticeDepth` (lines 46-49): no validation. -/
def setLatticeDepth (st : IsingModel) (num : ℤ) : IsingModel :=
  { st with latticeDepth := num, hasBeenSetup := false }

/-- `IsingModel::setInteractionSigma` (lines 56-59): no validation. -/
def setInteractionSigma (st : IsingModel) (sig : ℝ) : IsingModel :=
  { st with interactionSigma := sig, hasBeenSetup := false }

/-- `IsingModel::setHausdorffDimension` (lines 66-70). -/
def setHausdorffDimension (st : IsingModel) (dim : ℝ) : IsingModel :=
  if dim ≤ 0 then st
  else { st with hausdorffDim := dim, hasBeenSetup := false }

/-- `IsingModel::setHausdorffMethod` (lines 79-82): no validation. -/
def setHausdorffMethod (st : IsingModel) (hmtd : String) : IsingModel :=
  { st with hausdorffMethod := hmtd, hasBeenSetup := false }

/-- `IsingModel::setMCMethod` (lines 91-94): no validation. -/
def setMCMethod (st : IsingModel) (mcmd : String) : IsingModel :=
  { st with mcMethod := mcmd, hasBeenSetup := false }

/-- `IsingModel::setCouplingConsts` (lines 102-106): no validation. -/
def setCouplingConsts (st : IsingModel) (tH tJ : ℝ) : IsingModel :=
  { st with H := tH, J := tJ, hasBeenSetup := false }

/-- `IsingModel::setTemperature` (lines 113-117): rejects `tkbT < 0`
(zero is accepted). -/
def setTemperature (st : IsingModel) (tkbT : ℝ) : IsingModel :=
  if tkbT < 0 then st
  else { st with kbT := tkbT, hasBeenSetup := false }

/-- The header shorthand `K() = J/kbT` (`IsingModel.h` line 55); the
implementation file calls it `getK()`. -/
def getK (st : IsingModel) : ℝ := st.J / st.kbT

/-- The header shorthand `h() = H/kbT` (`IsingModel.h` line 56); the
implementation file calls it `geth()`. -/
def geth (st : IsingModel) : ℝ := st.H / st.kbT

/-- `IsingModel::getDistanceSq` (lines 160-170): squared Euclidean
distance between the coordinate vectors, with 1 substituted when
`interactionSigma == 0` or the distance vanishes.  The loop runs over
`s1.coords.size()`; `s2.coords.at(i)` is modelled with `getD` (in C++
it would throw when `s2.coords` is shorter, which cannot happen for
spins built by `addSpins`, all of which share the lattice dimension). -/
def getDistanceSq (st : IsingModel) (s1 s2 : Spin) : ℝ :=
  if st.interactionSigma = 0 then 1
  else
    let distance := ∑ i in Finset.range s1.coords.length,
      (s1.coords.getD i 0 - s2.coords.getD i 0) ^ 2
    if distance = 0 then 1 else distance

/-- The flip sign computed at lines 193-194 and 210-211:
`std::find(flips.begin(), flips.end(), i) != flips.end() ? -1 : 1`. -/
def spinFlipSign (flips : List ℤ) (i : ℤ) : ℤ :=
  if i ∈ flips then -1 else 1

/-- The two nearest-neighbour contributions of axis `j` for spin `i`
(`IsingModel.cpp` lines 200-235).  `sgn` is the flip-sign function
(`spinFlipSign flips`); `indexPM = pow(latticeDimensions.at(j), p-1-j)`
is the linear index stride of axis `j`.  Neighbour accesses go through
`getD defaultSpin`, whose `active = false` makes an out-of-range access
contribute 0 (in C++ `at` would throw; the left guard `i > indexPM-1`
keeps the index non-negative, and on states built by `setup` the index
is always within range). -/
def neighborContrib (st : IsingModel) (sgn : ℤ → ℤ) (s : Spin) (i : ℤ) (j : ℕ) : ℝ :=
  let p := st.latticeDimensions.length
  let indexPM : ℤ := st.latticeDimensions.getD j 0 ^ (p - 1 - j)
  let left :=
    if i > indexPM - 1 ∧ s.coords.getD j 0 ≠ st.xmin ∧
        (st.spinArray.getD (i - indexPM).toNat defaultSpin).coords.getD j 0 ≠ st.xmax then
      let newIndex := i - indexPM
      let nb := st.spinArray.getD newIndex.toNat defaultSpin
      if nb.active then
        -(getK st * getDistanceSq st s nb ^ (st.interactionSigma / 2)
          * (s.S : ℝ) * (nb.S : ℝ) * (sgn i : ℝ) * (sgn newIndex : ℝ) / 2)
      else 0
    else 0
  let right :=
    if i + indexPM < (st.nSpins : ℤ) ∧ s.coords.getD j 0 ≠ st.xmax ∧
        (st.spinArray.getD (i + indexPM).toNat defaultSpin).coords.getD j 0 ≠ st.xmin then
      let newIndex := i + indexPM
      let nb := st.spinArray.getD newIndex.toNat defaultSpin
      if nb.active then
        -(getK st * getDistanceSq st s nb ^ (st.interactionSigma / 2)
          * (s.S : ℝ) * (nb.S : ℝ) * (sgn i : ℝ) * (sgn newIndex : ℝ) / 2)
      else 0
    else 0
  left + right

/-- The contribution of spin `i` to the effective Hamiltonian
(loop body of `IsingModel::getEffHamiltonian`, lines 190-236): inactive
spins are skipped (`continue`), active spins contribute the field term
`-h*S_i*sign_i` plus the per-axis neighbour terms. -/
def effHTerm (st : IsingModel) (sgn : ℤ → ℤ) (i : ℕ) : ℝ :=
  let s := st.spinArray.getD i defaultSpin
  if s.active then
    -(geth st * (s.S : ℝ) * (sgn (i : ℤ) : ℝ))
      + ∑ j in Finset.range st.latticeDimensions.length, neighborContrib st sgn s (i : ℤ) j
  else 0

/-- `IsingModel::getEffHamiltonian(const std::vector<int>&)`
(lines 188-238): `-(beta * Hamiltonian)` of the configuration obtained by
hypothetically flipping the spins listed in `flips`. -/
def getEffHamiltonian (st : IsingModel) (flips : List ℤ) : ℝ :=
  ∑ i in Finset.range st.nSpins, effHTerm st (spinFlipSign flips) i

/-- Statement-level embedding of `getEffHamiltonian` in which the member
state is threaded through every loop iteration, as a mutating member
function would be: each iteration receives the object produced by the
previous one and returns the object it leaves behind.  Used to state the
frame property (the source body contains no member assignment). -/
def getEffHamiltonianRun (st : IsingModel) (flips : List ℤ) : ℝ × IsingModel :=
  (List.range st.nSpins).foldl
    (fun p i => (p.1 + effHTerm p.2 (spinFlipSign flips) i, p.2)) (0, st)

/-- Recursion core of `IsingModel::computePartitionFunction`
(lines 246-264).  The fuel argument is `nSpins - start`, so `fuel = 0`
is exactly the guard `start >= nSpins` (which returns 0), and each
recursive call at `start+1` has fuel `nSpins - (start+1)`. -/
def computePartitionFunctionGo (st : IsingModel) : ℕ → ℕ → List ℤ → ℝ
  | 0, _, _ => 0
  | fuel + 1, start, flips =>
      Real.exp (getEffHamiltonian st (flips ++ [(start : ℤ)]))
      + computePartitionFunctionGo st fuel (start + 1) (flips ++ [(start : ℤ)])
      + computePartitionFunctionGo st fuel (start + 1) flips
      + (if start = 0 then Real.exp (getEffHamiltonian st []) else 0)

/-- `IsingModel::computePartitionFunction(const int, const std::vector<int>&)`
(lines 246-264): returns 0 when `start >= nSpins`; otherwise adds
`exp(getEffHamiltonian(flips ++ [start]))`, the two recursive branches at
`start+1` (with and without `start` flipped), and — only at `start == 0` —
`exp(getEffHamiltonian())` with the *default empty* flip vector
(line 261 calls the zero-argument overload). -/
def computePartitionFunction (st : IsingModel) (start : ℕ) (flips : List ℤ) : ℝ :=
  computePartitionFunctionGo st (st.nSpins - start) start flips

/-- Carry walk of `IsingModel::nextPermutation` (lines 275-290) over the
suffix of the index vector still to be processed: `none` signals that the
loop reached the last digit with value `max-1` (the case in which the
source writes `tvN.at(0) = -1`); digits equal to `max-1` before that are
zeroed, and the first smaller digit is incremented. -/
def npGo (mx : ℤ) : List ℤ → Option (List ℤ)
  | [] => some []
  | [x] => if x = mx - 1 then none else some [x + 1]
  | x :: y :: rest =>
      if x = mx - 1 then (npGo mx (y :: rest)).map (fun l => 0 :: l)
      else some ((x + 1) :: y :: rest)

/-- `IsingModel::nextPermutation` (lines 275-290): mixed-radix increment
with carry.  In the exhausted case all digits but the last have been
zeroed, the last still holds `max-1`, and then position 0 is overwritten
with `-1` as the loop-end sentinel. -/
def nextPermutation (tvN : List ℤ) (mx : ℤ) : List ℤ :=
  match npGo mx tvN with
  | some l => l
  | none => (List.replicate (tvN.length - 1) (0 : ℤ) ++ [mx - 1]).set 0 (-1)

/-- The lower-corner coordinate of axis `iDim` computed at
`IsingModel.cpp` lines 321-332: `x0.at(iDim)` plus, per depth level,
`(1 + (1/scale - slices)/(slices - 1)) * scale^(depth-iDepth)*delta *
vN.at(iDim*depth + iDepth)`.  List accesses use `getD 0` where the C++
`at` would throw on malformed inputs that `setup` never produces. -/
def cPosAt (m : IsingModel) (depth : ℕ) (delta : ℝ) (x0 : List ℝ) (vN : List ℤ) (iDim : ℕ) : ℝ :=
  x0.getD iDim 0 + ∑ iDepth in Finset.range depth,
    (1 + (1 / m.hausdorffScale - (m.hausdorffSlices : ℝ)) / ((m.hausdorffSlices : ℝ) - 1))
      * (m.hausdorffScale ^ (depth - iDepth) * delta)
      * (vN.getD (iDim * depth + iDepth) 0 : ℝ)

/-- The corner loop of `addSpins` (lines 337-354): enumerates the `2^p`
corners `cubePoints` of the current smallest hypercube via
`nextPermutation` with radix 2, appending one active spin with value `+1`
per corner at `cubePoints*scale^depth*delta + cPos`.  The loop condition
reads `cubePoints.at(0)`, which throws (`none`) on an empty index vector;
the fuel bounds the iteration count and exceeds it at every call site. -/
def cornerLoop (depth : ℕ) (delta : ℝ) (cPos : List ℝ) :
    ℕ → List ℤ → IsingModel → Option IsingModel
  | fuel, cubePoints, m =>
    match cubePoints.get? 0 with
    | none => none
    | some c =>
      if c = -1 then some m
      else
        match fuel with
        | 0 => none
        | fuel + 1 =>
          let ts : Spin :=
            { S := 1, active := true,
              coords := (List.range cubePoints.length).map
                (fun index => (cubePoints.getD index 0 : ℝ) * (m.hausdorffScale ^ depth * delta)
                  + cPos.getD index 0) }
          cornerLoop depth delta cPos fuel (nextPermutation cubePoints 2)
            { m with spinArray := m.spinArray ++ [ts], nSpins := m.nSpins + 1 }

/-- The outer position loop of `addSpins` (lines 316-355): enumerates all
`slices^(p*depth)` branch-choice vectors `vN` via `nextPermutation`.  The
loop condition reads `vN.at(0)`, which on an *empty* `vN` (this happens
exactly when `p*depth = 0`, e.g. at lattice depth 0) throws
`std::out_of_range` — modelled as `none`. -/
def spinPermLoop (depth : ℕ) (delta : ℝ) (x0 : List ℝ) :
    ℕ → List ℤ → IsingModel → Option IsingModel
  | 0, vN, m =>
    match vN.get? 0 with
    | none => none
    | some v => if v = -1 then some m else none
  | fuel + 1, vN, m =>
    match vN.get? 0 with
    | none => none
    | some v =>
      if v = -1 then some m
      else
        let dims := m.latticeDimensions.length
        let cPos := (List.range dims).map (cPosAt m depth delta x0 vN)
        match cornerLoop depth delta cPos (2 ^ dims + 1) (List.replicate dims (0 : ℤ)) m with
        | none => none
        | some m1 => spinPermLoop depth delta x0 fuel (nextPermutation vN m.hausdorffSlices) m1

/-- Modelled from the spec: the sort at the end of `addSpins` calls
`QuickSort` with the `spin` comparison `operator>`, which is declared
nowhere under `src/`; spec §2/§3 say the sites are put in canonical
coordinate order, lexicographic over axes.  `spinLe` is that order. -/
def spinLe : List ℝ → List ℝ → Bool
  | [], _ => true
  | _ :: _, [] => false
  | x :: xs, y :: ys => if x < y then true else if y < x then false else spinLe xs ys

/-- Modelled from the spec: insertion of one spin into a
coordinate-sorted list, used by `sortSpins` (see `spinLe`). -/
def insertSpin (s : Spin) : List Spin → List Spin
  | [] => [s]
  | b :: t => if spinLe s.coords b.coords then s :: b :: t else b :: insertSpin s t

/-- Modelled from the spec: the canonical coordinate sort performed by
`QuickSort(spinArray, 0, nSpins-1)` at line 358, whose spin comparator is
missing from `src/` (see `spinLe`). -/
def sortSpins : List Spin → List Spin
  | [] => []
  | a :: t => insertSpin a (sortSpins t)

/-- `IsingModel::addSpins` (lines 300-360).  `delta = |x1.at(0)-x0.at(0)|`
(throws on empty input, hence the `Option` match); `vN` has
`latticeDimensions.size()*depth` digits, all zero; then the position loop
runs and the resulting array is sorted.  The fuel
`slices^(p*depth) + 1` dominates the number of branch-choice vectors. -/
def addSpins (m : IsingModel) (depth : ℕ) (x0 x1 : List ℝ) : Option IsingModel :=
  match x1.get? 0, x0.get? 0 with
  | some a1, some a0 =>
      let delta := |a1 - a0|
      let vN := List.replicate (m.latticeDimensions.length * depth) (0 : ℤ)
      (spinPermLoop depth delta x0
          (m.hausdorffSlices.toNat ^ (m.latticeDimensions.length * depth) + 1) vN m).map
        (fun m1 => { m1 with spinArray := sortSpins m1.spinArray })
  | _, _ => none

/-- `IsingModel::setup` (lines 366-398): under the `SCALING` method the
scale is derived as `exp(-ceil(dim)*ln(slices)/dim)`; a scale above
`1/slices` is fatal (`none`); `ceil(dim)` copies of `2*slices^depth` are
appended to `latticeDimensions`; `x0`/`x1` span the unit hypercube; then
`addSpins` runs and the set-up flag is raised. -/
def setup (st : IsingModel) : Option IsingModel :=
  let st1 :=
    if st.hausdorffMethod = "SCALING" then
      { st with hausdorffScale :=
          Real.exp (-(⌈st.hausdorffDim⌉ : ℝ) * Real.log (st.hausdorffSlices : ℝ)
            / st.hausdorffDim) }
    else st
  if st1.hausdorffScale > 1 / (st1.hausdorffSlices : ℝ) then none
  else
    let dims := st1.latticeDimensions ++
      List.replicate ⌈st1.hausdorffDim⌉.toNat (2 * st1.hausdorffSlices ^ st1.latticeDepth.toNat)
    let st2 := { st1 with latticeDimensions := dims }
    let x0 := List.replicate st2.latticeDimensions.length (0 : ℝ)
    let x1 := List.replicate st2.latticeDimensions.length (1 : ℝ)
    (addSpins st2 st2.latticeDepth.toNat x0 x1).map
      (fun st3 => { st3 with hasBeenSetup := true })

/-- The Metropolis acceptance decision of `metropolisStep`
(lines 524-525), also used verbatim by `hybridStep` (lines 581-582):
accept outright when `tE - currentEffH < 0`, otherwise accept when the
uniform draw `u` is below `exp(currentEffH - tE)`. -/
def metropolisAccept (currentEffH tE u : ℝ) : Bool :=
  if tE - currentEffH < 0 then true else decide (u < Real.exp (currentEffH - tE))

/-- The Heat Bath acceptance decision of `heatBathStep` (lines 550-558):
`acceptance = exp(currentEffH - tE)`; the source first tests
`std::isinf(acceptance)` (a `double` overflow check) and accepts outright
if it holds — `Real.exp` is finite everywhere, so that branch never fires
in the real-number model; otherwise, when `acceptance > 0` (always, for
the real exponential), accept when `u` is below
`acceptance / (exp(tE-currentEffH) + acceptance)`. -/
def heatBathAccept (currentEffH tE u : ℝ) : Bool :=
  let acceptance := Real.exp (currentEffH - tE)
  if 0 < acceptance then
    decide (u < acceptance / (Real.exp (tE - currentEffH) + acceptance))
  else false

/-- The three statements executed on acceptance of a single-spin flip
(lines 527-531 and 560-564): negate `spinArray.at(i).S`, push
`|tE - currentEffH|` onto `mcInfo`, cache `currentEffH = tE`. -/
def acceptFlip (st : IsingModel) (i : ℕ) (tE : ℝ) : IsingModel :=
  { st with
      spinArray := st.spinArray.set i
        (let s := st.spinArray.getD i defaultSpin
         { s with S := -s.S }),
      mcInfo := st.mcInfo ++ [|tE - st.currentEffH|],
      currentEffH := tE }

/-- `IsingModel::metropolisStep` (lines 515-535): one sweep over the
spins.  `rngU k` is the `k`-th value of `rNG->Uniform()`; the generator
is consulted only in the `else` branch of line 524-525, so the counter
advances only there. -/
def metropolisStep (rngU : ℕ → ℝ) (st : IsingModel) (k : ℕ) : IsingModel × ℕ :=
  (List.range st.nSpins).foldl
    (fun p (i : ℕ) =>
      let tE := getEffHamiltonian p.1 [(i : ℤ)]
      if tE - p.1.currentEffH < 0 then (acceptFlip p.1 i tE, p.2)
      else
        (if metropolisAccept p.1.currentEffH tE (rngU p.2) then acceptFlip p.1 i tE else p.1,
         p.2 + 1))
    (st, k)

/-- `IsingModel::heatBathStep` (lines 542-569): one sweep over the spins
with the Heat Bath acceptance rule.  Over the reals the `isinf` branch of
the source never fires (see `heatBathAccept`), so `rNG->Uniform()` is
drawn at every site. -/
def heatBathStep (rngU : ℕ → ℝ) (st : IsingModel) (k : ℕ) : IsingModel × ℕ :=
  (List.range st.nSpins).foldl
    (fun p (i : ℕ) =>
      let tE := getEffHamiltonian p.1 [(i : ℤ)]
      (if heatBathAccept p.1.currentEffH tE (rngU p.2) then acceptFlip p.1 i tE else p.1,
       p.2 + 1))
    (st, k)

/-- `IsingModel::hybridStep` (lines 576-592): evaluates the joint energy
of flipping the whole group `spinFlips`, decides with the Metropolis rule
on the pre-drawn uniform `rng`, and on acceptance negates every listed
spin (a duplicated index is negated once per occurrence, like the
source's loop), records `|tE - currentEffH|` and caches `tE`. -/
def hybridStep (st : IsingModel) (rng : ℝ) (spinFlips : List ℤ) : IsingModel :=
  let tE := getEffHamiltonian st spinFlips
  if metropolisAccept st.currentEffH tE rng then
    { st with
        spinArray := spinFlips.foldl
          (fun arr idx => arr.set idx.toNat
            (let s := arr.getD idx.toNat defaultSpin
             { s with S := -s.S }))
          st.spinArray,
        mcInfo := st.mcInfo ++ [|tE - st.currentEffH|],
        currentEffH := tE }
  else st

/-- The inner draw loop of the HYBRID branch (lines 477-482): `j` times,
draw `index = rNG->Integer(popVectorSize)`, *push* `popVector.at(index)`
onto `spinFlips` (which already holds the zero entries of its
value-initialization) and erase it from the pool.  `rngI k n` is the
`k`-th generator value reduced to `[0, n)`; `popVector.at(index)` is
modelled with `getD 0` (in C++ it throws for `index >= n`, which cannot
happen when `rngI k n < n`). -/
def drawLoop (rngI : ℕ → ℕ → ℕ) : ℕ → List ℤ → List ℤ → ℕ → List ℤ × List ℤ × ℕ
  | 0, acc, pop, k => (acc, pop, k)
  | j + 1, acc, pop, k =>
      let index := rngI k pop.length
      drawLoop rngI j (acc ++ [pop.getD index 0]) (pop.eraseIdx index) (k + 1)

/-- One group extraction of the HYBRID branch (lines 471-483):
`std::vector<int> spinFlips(nSpinsPerThread)` value-initializes
`nSpinsPerThread` *zero* entries; if the pool is smaller than the group
size the whole pool is assigned over them, otherwise the drawn indices
are pushed *after* the zeros.  Returns (group, remaining pool, counter).
(`nSpinsPerThread > popVector.size()` compares `int` against `size_t`;
`nSpinsPerThread ≥ 1` at every call, so the promotion is value-safe.) -/
def drawGroup (rngI : ℕ → ℕ → ℕ) (k : ℕ) (spt : ℤ) (pop : List ℤ) : List ℤ × List ℤ × ℕ :=
  let spinFlips := List.replicate spt.toNat (0 : ℤ)
  if (pop.length : ℤ) < spt then (pop, [], k)
  else drawLoop rngI spt.toNat spinFlips pop k

/-- The adaptive granularity block of the HYBRID branch (lines 445-463):
clamp `nSpinsPerThread` to at least 1; halve it (floor 1) when it exceeds
1 and the new trailing sum of accepted deltas grew past twice the old
one, failed to increase, or is zero; otherwise double it (floor 1) when
`|magnetization| < nSpins/2`.  Divisions are C++ `int` divisions
(truncation toward zero, `Int.tdiv`). -/
def adaptGranularity (s : ℤ) (newAvgAbsDeltaE avgAbsDeltaE : ℝ)
    (magnetization : ℤ) (nSpins : ℕ) : ℤ :=
  if s > 1 ∧ (newAvgAbsDeltaE > avgAbsDeltaE * 2 ∨ newAvgAbsDeltaE ≤ avgAbsDeltaE
      ∨ newAvgAbsDeltaE = 0) then
    max (s.tdiv 2) 1
  else if s ≥ 1 ∧ |magnetization| < (nSpins : ℤ).tdiv 2 then
    max (s * 2) 1
  else s

/-- Lines 445-463 in full: the `if(nSpinsPerThread < 1) nSpinsPerThread=1`
clamp of line 445 followed by the `adaptGranularity` decision. -/
def adaptSpinsPerThread (nSpinsPerThread : ℤ) (newAvgAbsDeltaE avgAbsDeltaE : ℝ)
    (magnetization : ℤ) (nSpins : ℕ) : ℤ :=
  adaptGranularity (if nSpinsPerThread < 1 then 1 else nSpinsPerThread)
    newAvgAbsDeltaE avgAbsDeltaE magnetization nSpins

/-- The `while(popVectorSize > 0)` loop of the HYBRID branch
(lines 467-493): extract a group, draw one `rNG->Uniform()` for it and
run `hybridStep`, until the pool is exhausted.  Besides the final state
and counter it returns the list of groups passed to `hybridStep`, in
order.  The fuel bounds the iteration count (each pass removes at least
one pool element, so `nSpins + 1` suffices at the call site). -/
def hybridLoopGo (rngU : ℕ → ℝ) (rngI : ℕ → ℕ → ℕ) (spt : ℤ) :
    ℕ → IsingModel → List ℤ → ℕ → IsingModel × ℕ × List (List ℤ)
  | 0, st, _, k => (st, k, [])
  | fuel + 1, st, pop, k =>
      if pop.length = 0 then (st, k, [])
      else
        let d := drawGroup rngI k spt pop
        let st1 := hybridStep st (rngU d.2.2) d.1
        let r := hybridLoopGo rngU rngI spt fuel st1 d.2.1 (d.2.2 + 1)
        (r.1, r.2.1, d.1 :: r.2.2)

/-- The whole HYBRID branch of one Monte Carlo step (lines 435-499):
build the pool `0..nSpins-1`, adapt the group size, then run the group
loop.  Returns the state, the adapted `nSpinsPerThread`, the counter and
the groups passed to `hybridStep`. -/
def hybridMCStep (rngU : ℕ → ℝ) (rngI : ℕ → ℕ → ℕ) (st : IsingModel) (spt : ℤ)
    (newAvgAbsDeltaE avgAbsDeltaE : ℝ) (k : ℕ) : IsingModel × ℤ × ℕ × List (List ℤ) :=
  let pop := (List.range st.nSpins).map Int.ofNat
  let spt1 := adaptSpinsPerThread spt newAvgAbsDeltaE avgAbsDeltaE st.magnetization st.nSpins
  let r := hybridLoopGo rngU rngI spt1 (st.nSpins + 1) st pop k
  (r.1, spt1, r.2.1, r.2.2)

/-- One iteration of the step loop of `runMonteCarlo` (lines 421-505):
sum the recorded deltas into `newAvgAbsDeltaE`, clear `mcInfo`, dispatch
on `mcMethod` (an unrecognized selector does nothing), then push the old
trailing value onto `hybridInfo` when it is non-negative.  Returns
(state, new trailing value, group size, counter). -/
def mcStep (rngU : ℕ → ℝ) (rngI : ℕ → ℕ → ℕ) (st : IsingModel) (avgAbsDeltaE : ℝ)
    (spt : ℤ) (k : ℕ) : IsingModel × ℝ × ℤ × ℕ :=
  let newAvgAbsDeltaE := st.mcInfo.sum
  let st0 := { st with mcInfo := [] }
  let r :=
    if st.mcMethod = "METROPOLIS" then
      let q := metropolisStep rngU st0 k
      (q.1, spt, q.2)
    else if st.mcMethod = "HEATBATH" then
      let q := heatBathStep rngU st0 k
      (q.1, spt, q.2)
    else if st.mcMethod = "HYBRID" then
      let q := hybridMCStep rngU rngI st0 spt newAvgAbsDeltaE avgAbsDeltaE k
      (q.1, q.2.1, q.2.2.1)
    else (st0, spt, k)
  let st2 := if 0 ≤ avgAbsDeltaE then
    { r.1 with hybridInfo := r.1.hybridInfo ++ [avgAbsDeltaE] } else r.1
  (st2, newAvgAbsDeltaE, r.2.1, r.2.2)

/-- The `for(int i=0; i < nMCSteps; i++)` loop of `runMonteCarlo`. -/
def mcLoop (rngU : ℕ → ℝ) (rngI : ℕ → ℕ → ℕ) :
    ℕ → IsingModel → ℝ → ℤ → ℕ → IsingModel
  | 0, st, _, _, _ => st
  | n + 1, st, avgAbsDeltaE, spt, k =>
      let r := mcStep rngU rngI st avgAbsDeltaE spt k
      mcLoop rngU rngI n r.1 r.2.1 r.2.2.1 r.2.2.2

/-- `IsingModel::runMonteCarlo` (lines 404-508): fatal
(`ERROR: Object has not been setup!` then `exit(EXIT_FAILURE)`, modelled
as `Except.error`) when the set-up flag is false; otherwise cache
`currentEffH = getEffHamiltonian()`, initialize `avgAbsDeltaE = -1` and
`nSpinsPerThread = floor(nSpins/nThreads)` (C++ `int` division), and run
`nMCSteps` steps.  `rngU`/`rngI` abstract the `TRandom3` stream. -/
def runMonteCarlo (rngU : ℕ → ℝ) (rngI : ℕ → ℕ → ℕ) (st : IsingModel) :
    Except String IsingModel :=
  if st.hasBeenSetup = false then Except.error "ERROR: Object has not been setup!"
  else
    let st1 := { st with currentEffH := getEffHamiltonian st [] }
    Except.ok (mcLoop rngU rngI st.nMCSteps.toNat st1 (-1) ((st.nSpins : ℤ).tdiv st.nThreads) 0)

/-- A degenerate abstract random stream whose `Integer(n)` draws are
always 0 (a legal value of `TRandom3::Integer(n)` for every `n ≥ 1`). -/
def rngZero : ℕ → ℕ → ℕ := fun _ _ => 0

/-- A degenerate abstract uniform stream whose draws are all 1. -/
def rngOne : ℕ → ℝ := fun _ => 1

/-- A one-spin model (the smallest state with `nSpins ≥ 1`, as any
set-up model is), used to instantiate universally quantified theorems. -/
def stOne : IsingModel :=
  { initialModel with
      nSpins := 1,
      spinArray := [{ S := 1, active := true, coords := [0] }],
      latticeDimensions := [2] }

/-- A two-spin `HYBRID` model at which the group drawing of one hybrid
Monte Carlo step is evaluated.  The stale `magnetization` member is 5
(the adaptation block reads the member, which `runMonteCarlo` never
recomputes), so the group size stays at 1 and two groups are drawn. -/
def stTwo : IsingModel :=
  { initialModel with
      nSpins := 2,
      spinArray := [{ S := 1, active := true, coords := [0] },
                    { S := 1, active := true, coords := [1] }],
      latticeDimensions := [2],
      magnetization := 5,
      mcMethod := "HYBRID",
      hasBeenSetup := true }

/-! Helper lemmas shared by the claim theorems. -/

/-- Two flip lists with the same members induce the same flip-sign
function (the source only membership-tests `flips` via `std::find`). -/
lemma spinFlipSign_congr {a b : List ℤ} (h : ∀ x, x ∈ a ↔ x ∈ b) :
    spinFlipSign a = spinFlipSign b := by
  funext i
  unfold spinFlipSign
  by_cases hi : i ∈ a
  · rw [if_pos hi, if_pos ((h i).mp hi)]
  · rw [if_neg hi, if_neg (fun hb => hi ((h i).mpr hb))]

/-- The effective Hamiltonian depends on the flip list only through
membership. -/
lemma getEffHamiltonian_congr (st : IsingModel) {a b : List ℤ}
    (h : ∀ x, x ∈ a ↔ x ∈ b) :
    getEffHamiltonian st a = getEffHamiltonian st b := by
  unfold getEffHamiltonian
  rw [spinFlipSign_congr h]

/-- The set-up flag is read by none of the energy functions. -/
lemma getEffHamiltonian_flag (st : IsingModel) (b : Bool) (flips : List ℤ) :
    getEffHamiltonian { st with hasBeenSetup := b } flips = getEffHamiltonian st flips := rfl

/-- The partition-function recursion core ignores the set-up flag. -/
lemma computePartitionFunctionGo_flag (st : IsingModel) (b : Bool) :
    ∀ (fuel start : ℕ) (flips : List ℤ),
      computePartitionFunctionGo { st with hasBeenSetup := b } fuel start flips
        = computePartitionFunctionGo st fuel start flips := by
  intro fuel
  induction fuel with
  | zero => intro start flips; rfl
  | succ n ih =>
      intro start flips
      simp only [computePartitionFunctionGo, ih, getEffHamiltonian_flag]

/-- The outer position loop fails immediately on an empty index vector:
its condition reads `vN.at(0)`. -/
lemma spinPermLoop_nil (depth : ℕ) (delta : ℝ) (x0 : List ℝ) (fuel : ℕ) (m : IsingModel) :
    spinPermLoop depth delta x0 fuel [] m = none := by
  cases fuel <;> rfl

/-- The defining recurrence of `computePartitionFunction`, in the exact
shape of the source (`IsingModel.cpp` lines 246-264). -/
lemma computePartitionFunction_step (st : IsingModel) (start : ℕ) (flips : List ℤ) :
    computePartitionFunction st start flips =
      if st.nSpins ≤ start then 0
      else
        Real.exp (getEffHamiltonian st (flips ++ [(start : ℤ)]))
        + computePartitionFunction st (start + 1) (flips ++ [(start : ℤ)])
        + computePartitionFunction st (start + 1) flips
        + (if start = 0 then Real.exp (getEffHamiltonian st []) else 0) := by
  unfold computePartitionFunction
  by_cases h : st.nSpins ≤ start
  · rw [if_pos h, Nat.sub_eq_zero_of_le h]
    rfl
  · rw [if_neg h, (by omega : st.nSpins - start = (st.nSpins - (start + 1)) + 1)]
    rfl

/-- The recursion from any `start ≥ 1` (where the line-261 extra term is
dead) sums `exp(getEffHamiltonian(flips ∪ S))` over every *non-empty*
subset `S` of `{start, ..., nSpins-1}`; adding the empty subset's term
`exp(getEffHamiltonian(flips))` completes the powerset sum. -/
lemma computePartitionFunction_powerset (st : IsingModel) :
    ∀ (k start : ℕ) (flips : List ℤ), 1 ≤ start → st.nSpins = start + k →
      computePartitionFunction st start flips + Real.exp (getEffHamiltonian st flips)
        = ∑ S in (Finset.Ico start st.nSpins).powerset,
            Real.exp (getEffHamiltonian st (flips ++ S.toList.map Int.ofNat)) := by
  intro k
  induction k with
  | zero =>
      intro start flips hstart hN
      rw [computePartitionFunction_step, if_pos (by omega),
        Finset.Ico_eq_empty_of_le (by omega)]
      simp
  | succ k ih =>
      intro start flips hstart hN
      have hins : Finset.Ico start st.nSpins
          = insert start (Finset.Ico (start + 1) st.nSpins) := by
        ext x
        simp only [Finset.mem_Ico, Finset.mem_insert]
        omega
      have hnot : start ∉ Finset.Ico (start + 1) st.nSpins := by
        simp
      have e1 := ih (start + 1) (flips ++ [(start : ℤ)]) (by omega) (by omega)
      have e2 := ih (start + 1) flips (by omega) (by omega)
      have hcongr : ∀ S ∈ (Finset.Ico (start + 1) st.nSpins).powerset,
          Real.exp (getEffHamiltonian st (flips ++ (insert start S).toList.map Int.ofNat))
            = Real.exp (getEffHamiltonian st
                ((flips ++ [(start : ℤ)]) ++ S.toList.map Int.ofNat)) := by
        intro S hS
        refine congrArg Real.exp (getEffHamiltonian_congr st fun x => ?_)
        simp only [List.mem_append, List.mem_map, Finset.mem_toList, Finset.mem_insert,
          List.mem_singleton]
        constructor
        · rintro (hx | ⟨a, (rfl | ha), rfl⟩)
          · exact Or.inl (Or.inl hx)
          · exact Or.inl (Or.inr rfl)
          · exact Or.inr ⟨a, ha, rfl⟩
        · rintro ((hx | rfl) | ⟨a, ha, rfl⟩)
          · exact Or.inl hx
          · exact Or.inr ⟨start, Or.inl rfl, rfl⟩
          · exact Or.inr ⟨a, Or.inr ha, rfl⟩
      rw [computePartitionFunction_step, if_neg (by omega), if_neg (by omega),
        hins, Finset.sum_powerset_insert hnot, Finset.sum_congr rfl hcongr]
      linarith [e1, e2]

/-! The claim theorems. -/

/-- C1: for every model with at least one spin (every set-up model has
`nSpins ≥ 1`; `setup` also leaves every spin active, so subsets of spin
indices and spin configurations correspond one to one),
`computePartitionFunction(0, {})` equals the sum of
`exp(getEffHamiltonian(F))` over *every* subset `F` of
`{0, ..., nSpins-1}`, each subset appearing exactly once — the empty
subset being contributed by the line-261 extra term. -/
theorem c1_partitionFunction_powerset_sum (st : IsingModel) (h1 : 1 ≤ st.nSpins) :
    computePartitionFunction st 0 [] =
      ∑ F in (Finset.range st.nSpins).powerset,
        Real.exp (getEffHamiltonian st (F.toList.map Int.ofNat)) := by
  have hins : Finset.range st.nSpins = insert 0 (Finset.Ico 1 st.nSpins) := by
    ext x
    simp only [Finset.mem_range, Finset.mem_insert, Finset.mem_Ico]
    omega
  have hnot : (0 : ℕ) ∉ Finset.Ico 1 st.nSpins := by
    simp
  have e1 := computePartitionFunction_powerset st (st.nSpins - 1) 1 [(0 : ℤ)]
    le_rfl (by omega)
  have e2 := computePartitionFunction_powerset st (st.nSpins - 1) 1 []
    le_rfl (by omega)
  have hcongr : ∀ S ∈ (Finset.Ico 1 st.nSpins).powerset,
      Real.exp (getEffHamiltonian st ((insert 0 S).toList.map Int.ofNat))
        = Real.exp (getEffHamiltonian st ([(0 : ℤ)] ++ S.toList.map Int.ofNat)) := by
    intro S hS
    refine congrArg Real.exp (getEffHamiltonian_congr st fun x => ?_)
    simp only [List.mem_append, List.mem_map, Finset.mem_toList, Finset.mem_insert,
      List.mem_singleton]
    constructor
    · rintro ⟨a, (rfl | ha), rfl⟩
      · exact Or.inl rfl
      · exact Or.inr ⟨a, ha, rfl⟩
    · rintro (rfl | ⟨a, ha, rfl⟩)
      · exact ⟨0, Or.inl rfl, rfl⟩
      · exact ⟨a, Or.inr ha, rfl⟩
  have hstep := computePartitionFunction_step st 0 []
  rw [if_neg (by omega), if_pos rfl] at hstep
  simp only [List.nil_append, Nat.cast_zero, Nat.zero_add, zero_add] at hstep
  simp only [List.nil_append] at e2
  rw [hstep, hins, Finset.sum_powerset_insert hnot, Finset.sum_congr rfl hcongr]
  linarith [e1, e2]

/-- C1, witness for `c1_partitionFunction_powerset_sum` at the one-spin
model `stOne`. -/
theorem c1_witness :
    computePartitionFunction stOne 0 [] =
      ∑ F in (Finset.range stOne.nSpins).powerset,
        Real.exp (getEffHamiltonian stOne (F.toList.map Int.ofNat)) :=
  c1_partitionFunction_powerset_sum stOne (by decide)

/-- C2, counterexample: on the freshly constructed model the set-up flag
is false, yet `computePartitionFunction(0, {})` *returns a value* (0,
since `start >= nSpins` holds immediately) instead of terminating: the
function contains no set-up check at all. -/
theorem c2_counterexample :
    initialModel.hasBeenSetup = false ∧ computePartitionFunction initialModel 0 [] = 0 :=
  ⟨rfl, rfl⟩

/-- C2 (amended): `runMonteCarlo` is fatal when the set-up flag is false
(diagnostic `ERROR: Object has not been setup!` then process
termination), but `computePartitionFunction` performs no set-up check —
its value is entirely independent of the flag. -/
theorem c2_setup_guard (st : IsingModel) (rngU : ℕ → ℝ) (rngI : ℕ → ℕ → ℕ) :
    (st.hasBeenSetup = false →
      runMonteCarlo rngU rngI st = Except.error "ERROR: Object has not been setup!")
    ∧ ∀ (b : Bool) (start : ℕ) (flips : List ℤ),
        computePartitionFunction { st with hasBeenSetup := b } start flips
          = computePartitionFunction st start flips := by
  constructor
  · intro h
    rw [runMonteCarlo, if_pos h]
  · intro b start flips
    exact computePartitionFunctionGo_flag st b (st.nSpins - start) start flips

/-- C2, witness for `c2_setup_guard` at the initial model. -/
theorem c2_witness :
    runMonteCarlo rngOne rngZero initialModel
      = Except.error "ERROR: Object has not been setup!"
    ∧ computePartitionFunction { initialModel with hasBeenSetup := true } 0 []
      = computePartitionFunction initialModel 0 [] :=
  ⟨(c2_setup_guard initialModel rngOne rngZero).1 rfl,
   (c2_setup_guard initialModel rngOne rngZero).2 true 0 []⟩

/-- C3: at the two-spin model `stTwo`, with group size 1 and the
all-zero `Integer` stream, the two groups handed to `hybridStep` in one
hybrid step are `[0,0]` and `[0,1]`: the index 0 appears twice in the
first group and again in the second, because
`std::vector<int> spinFlips(nSpinsPerThread)` pre-fills each group with
zero entries before the drawn indices are pushed — the groups are
neither duplicate-free nor pairwise disjoint, and do not partition
`{0,1}`. -/
theorem c3_hybrid_groups_overlap :
    (hybridMCStep rngOne rngZero stTwo 1 0 0 0).2.2.2 = [[0, 0], [0, 1]]
    ∧ (0 : ℤ) ∈ [[(0 : ℤ), 0], [0, 1]].getD 0 []
    ∧ (0 : ℤ) ∈ [[(0 : ℤ), 0], [0, 1]].getD 1 [] := by
  refine ⟨rfl, ?_, ?_⟩ <;> decide

/-- C4, counterexample: with cached energy `currentEffH = 1` and flip
candidate `tE = 0` — an energy strictly below the cached one — the Heat
Bath rule still *rejects* the flip for the valid draw `u = 99/100`: the
acceptance probability is `e/(e⁻¹+e) = e²/(1+e²) ≈ 0.88 < 1`, not
exactly 1 as the claim demands of both update rules. -/
theorem c4_counterexample :
    ((0 : ℝ) < 1) ∧ heatBathAccept 1 0 (99 / 100) = false := by
  refine ⟨by norm_num, ?_⟩
  simp only [heatBathAccept, sub_zero, zero_sub]
  rw [if_pos (Real.exp_pos _), decide_eq_false_iff_not]
  intro hlt
  rw [lt_div_iff₀ (by positivity)] at hlt
  have h1 : Real.exp 1 < 2.7182818286 := Real.exp_one_lt_d9
  have h2 : (0 : ℝ) < Real.exp (-1) := Real.exp_pos _
  have h3 : (0 : ℝ) < Real.exp 1 := Real.exp_pos _
  have h4 : Real.exp (-1) * Real.exp 1 = 1 := by
    rw [← Real.exp_add]; norm_num
  nlinarith [hlt, h1, h2, h3, h4]

/-- C4 (amended): for the Metropolis rule the claim holds — whenever
`tE < currentEffH` the flip is accepted whatever the drawn number is.
For the Heat Bath rule the acceptance decision is
`u < exp(cE-tE) / (exp(tE-cE) + exp(cE-tE))`; that threshold is strictly
below 1 (probability-1 acceptance arises only through the source's
`std::isinf` branch on floating-point overflow), so a draw at or above
the threshold rejects even when `tE < currentEffH`. -/
theorem c4_acceptance_amended (cE tE u : ℝ) :
    (tE - cE < 0 → metropolisAccept cE tE u = true)
    ∧ (heatBathAccept cE tE u = true ↔
        u < Real.exp (cE - tE) / (Real.exp (tE - cE) + Real.exp (cE - tE))) := by
  constructor
  · intro h
    rw [metropolisAccept, if_pos h]
  · simp only [heatBathAccept]
    rw [if_pos (Real.exp_pos _)]
    exact decide_eq_true_iff

/-- C4, witness for `c4_acceptance_amended` at `currentEffH = 1`,
`tE = 0`, `u = 1/2`. -/
theorem c4_witness :
    metropolisAccept 1 0 (1 / 2) = true ∧ heatBathAccept 1 0 (1 / 2) = true := by
  constructor
  · exact (c4_acceptance_amended 1 0 (1 / 2)).1 (by norm_num)
  · refine (c4_acceptance_amended 1 0 (1 / 2)).2.mpr ?_
    simp only [sub_zero, zero_sub]
    rw [lt_div_iff₀ (by positivity)]
    have h4 : Real.exp (-1) < Real.exp 1 := Real.exp_lt_exp.mpr (by norm_num)
    linarith

/-- C5: at lattice depth 0 the Geometry Builder produces no spins at
all — `addSpins` fails for *every* model and every pair of bounding
vectors, because `vN` has `latticeDimensions.size() * 0 = 0` entries and
the loop condition `vN.at(0) != -1` throws `std::out_of_range` before
the first hypercube is emitted (the claim's `2^D` corner spins are never
produced). -/
theorem c5_addSpins_depth_zero_throws (m : IsingModel) (x0 x1 : List ℝ) :
    addSpins m 0 x0 x1 = none := by
  unfold addSpins
  cases hx1 : x1.get? 0 with
  | none => rfl
  | some a1 =>
    cases hx0 : x0.get? 0 with
    | none => rfl
    | some a0 => simp [spinPermLoop_nil]

/-- C6, counterexample: a strictly decreasing trailing value
(`newAvg = 1 < 2 = avg`) with group size 2 makes the adaptation block
*halve* the size to 1 (`newAvgAbsDeltaE <= avgAbsDeltaE` selects the
"decrease granularity" branch), not double it to 4 as the claim
demands. -/
theorem c6_counterexample :
    ((1 : ℝ) < 2) ∧ adaptSpinsPerThread 2 1 2 0 100 = 1 := by
  refine ⟨by norm_num, ?_⟩
  unfold adaptSpinsPerThread adaptGranularity
  rw [if_neg (by decide : ¬ ((2 : ℤ) < 1)),
    if_pos ⟨by decide, Or.inr (Or.inl (by norm_num))⟩]
  decide

/-- C6 (amended): when the trailing value strictly decreases, a group
size above 1 is *halved* (integer division, floor 1), and size 1 is
doubled to 2 exactly when `|magnetization| < nSpins/2` — so the size
descends to 1 and then oscillates between 1 and 2; it never doubles
monotonically to the full spin count. -/
theorem c6_adaptation_amended (s : ℤ) (newAvg avg : ℝ) (mag : ℤ) (n : ℕ)
    (hdec : newAvg < avg) :
    (1 < s → adaptSpinsPerThread s newAvg avg mag n = max (s.tdiv 2) 1)
    ∧ (s = 1 → adaptSpinsPerThread s newAvg avg mag n
        = if |mag| < (n : ℤ).tdiv 2 then 2 else 1) := by
  constructor
  · intro hs
    unfold adaptSpinsPerThread adaptGranularity
    rw [if_neg (by omega : ¬ (s < 1)), if_pos ⟨hs, Or.inr (Or.inl hdec.le)⟩]
  · intro hs
    subst hs
    unfold adaptSpinsPerThread adaptGranularity
    rw [if_neg (by decide : ¬ ((1 : ℤ) < 1)),
      if_neg (by simp : ¬ ((1 : ℤ) > 1 ∧ (newAvg > avg * 2 ∨ newAvg ≤ avg ∨ newAvg = 0)))]
    by_cases hm : |mag| < (n : ℤ).tdiv 2
    · rw [if_pos ⟨le_refl 1, hm⟩, if_pos hm]; decide
    · rw [if_neg (fun hc => hm hc.2), if_neg hm]

/-- C6, witness for `c6_adaptation_amended` at size 2 and at size 1. -/
theorem c6_witness :
    adaptSpinsPerThread 2 1 2 0 0 = max ((2 : ℤ).tdiv 2) 1
    ∧ adaptSpinsPerThread 1 1 2 5 2 = if |(5 : ℤ)| < (2 : ℤ).tdiv 2 then 2 else 1 :=
  ⟨(c6_adaptation_amended 2 1 2 0 0 (by norm_num)).1 (by decide),
   (c6_adaptation_amended 1 1 2 5 2 (by norm_num)).2 rfl⟩

/-- C7: evaluating the effective Hamiltonian leaves the entire member
state — spin array, cached energy, magnetization and every model
parameter — unchanged: the state threaded through the statement-level
embedding `getEffHamiltonianRun` comes back untouched for every flip
list. -/
theorem c7_getEffHamiltonian_frame (st : IsingModel) (flips : List ℤ) :
    (getEffHamiltonianRun st flips).2 = st := by
  have h : ∀ (l : List ℕ) (p : ℝ × IsingModel),
      (l.foldl (fun q i => (q.1 + effHTerm q.2 (spinFlipSign flips) i, q.2)) p).2 = p.2 := by
    intro l
    induction l with
    | nil => intro p; rfl
    | cons a t ih => intro p; rw [List.foldl_cons, ih]
  exact h (List.range st.nSpins) (0, st)

/-- C8: a non-positive Hausdorff dimension, a negative temperature and a
non-positive Monte Carlo step count are silently ignored: each setter
returns the state unchanged. -/
theorem c8_invalid_setters_noop (st : IsingModel) (dim tkbT : ℝ) (num : ℤ)
    (hdim : dim ≤ 0) (ht : tkbT < 0) (hnum : num ≤ 0) :
    setHausdorffDimension st dim = st ∧ setTemperature st tkbT = st
    ∧ setNumMCSteps st num = st := by
  refine ⟨?_, ?_, ?_⟩
  · rw [setHausdorffDimension, if_pos hdim]
  · rw [setTemperature, if_pos ht]
  · rw [setNumMCSteps, if_pos (by omega)]

/-- C8, witness for `c8_invalid_setters_noop` at the initial model. -/
theorem c8_witness :
    setHausdorffDimension initialModel (-1) = initialModel
    ∧ setTemperature initialModel (-1) = initialModel
    ∧ setNumMCSteps initialModel 0 = initialModel :=
  c8_invalid_setters_noop initialModel (-1) (-1) 0 (by norm_num) (by norm_num) (by norm_num)

/-- C9, counterexample: `setTemperature(-1)` on a set-up model rejects
its argument through the early-return guard and therefore does *not*
clear the set-up flag — the flag is still true after the setter call,
contradicting "after any configuration setter call, with any argument,
the set-up flag is false". -/
theorem c9_counterexample :
    (setTemperature { initialModel with hasBeenSetup := true } (-1)).hasBeenSetup = true := by
  rw [setTemperature, if_pos (by norm_num : (-1 : ℝ) < 0)]

/-- C9 (amended): every setter call that passes its validation guard
clears the set-up flag (the unguarded setters do so unconditionally;
`setNumThreads` requires the *stored* thread count to be at least 1);
a guarded setter that rejects its argument leaves the whole state,
including the flag, unchanged (see `c9_counterexample`). -/
theorem c9_setters_clear_setup_flag (st : IsingModel) (num numT : ℤ)
    (dim sig tkbT tH tJ : ℝ) (hmtd mcmd : String)
    (hthr : 1 ≤ st.nThreads) (hnum : 1 ≤ num) (hdim : 0 < dim) (ht : 0 ≤ tkbT) :
    (setNumThreads st numT).hasBeenSetup = false
    ∧ (setNumMCSteps st num).hasBeenSetup = false
    ∧ (setLatticeDepth st num).hasBeenSetup = false
    ∧ (setInteractionSigma st sig).hasBeenSetup = false
    ∧ (setHausdorffDimension st dim).hasBeenSetup = false
    ∧ (setHausdorffMethod st hmtd).hasBeenSetup = false
    ∧ (setMCMethod st mcmd).hasBeenSetup = false
    ∧ (setCouplingConsts st tH tJ).hasBeenSetup = false
    ∧ (setTemperature st tkbT).hasBeenSetup = false := by
  refine ⟨?_, ?_, rfl, rfl, ?_, rfl, rfl, rfl, ?_⟩
  · rw [setNumThreads, if_neg (by omega)]
  · rw [setNumMCSteps, if_neg (by omega)]
  · rw [setHausdorffDimension, if_neg (by linarith)]
  · rw [setTemperature, if_neg (by linarith)]

/-- C9, witness for `c9_setters_clear_setup_flag` at the initial model
(whose stored thread count is 1). -/
theorem c9_witness :
    (setNumThreads initialModel 4).hasBeenSetup = false
    ∧ (setNumMCSteps initialModel 3).hasBeenSetup = false
    ∧ (setLatticeDepth initialModel 3).hasBeenSetup = false
    ∧ (setInteractionSigma initialModel 2).hasBeenSetup = false
    ∧ (setHausdorffDimension initialModel 2).hasBeenSetup = false
    ∧ (setHausdorffMethod initialModel "SPLITTING").hasBeenSetup = false
    ∧ (setMCMethod initialModel "HYBRID").hasBeenSetup = false
    ∧ (setCouplingConsts initialModel 0 1).hasBeenSetup = false
    ∧ (setTemperature initialModel 2).hasBeenSetup = false :=
  c9_setters_clear_setup_flag initialModel 3 4 2 2 2 0 1 "SPLITTING" "HYBRID"
    (by decide) (by decide) (by norm_num) (by norm_num)

/-- C10: `setNumThreads` guards on the *stored* member `nThreads`, not
on its argument: with a stored count of at least 1 it stores any
argument (zero and negative values included) and clears the set-up
flag; with a stored count below 1 it is a no-op for every argument. -/
theorem c10_setNumThreads_stored_guard (st : IsingModel) (num : ℤ) :
    (1 ≤ st.nThreads →
      setNumThreads st num = { st with nThreads := num, hasBeenSetup := false })
    ∧ (st.nThreads < 1 → setNumThreads st num = st) := by
  constructor
  · intro h; rw [setNumThreads, if_neg (by omega)]
  · intro h; rw [setNumThreads, if_pos h]

/-- C10, witness for `c10_setNumThreads_stored_guard`: the initial model
(stored count 1) accepts the negative argument `-3`; a model whose
stored count is 0 ignores the valid argument 7. -/
theorem c10_witness :
    setNumThreads initialModel (-3)
      = { initialModel with nThreads := -3, hasBeenSetup := false }
    ∧ setNumThreads { initialModel with nThreads := 0 } 7
      = { initialModel with nThreads := 0 } :=
  ⟨(c10_setNumThreads_stored_guard initialModel (-3)).1 (by decide),
   (c10_setNumThreads_stored_guard { initialModel with nThreads := 0 } 7).2 (by decide)⟩

end

end HausdorffIsing
